import Mathlib

/-!
Verification of the AIIG deliverables tracker core: the Excel import
pipeline (normalize, validate, clean, deduplicate, load) and the
upcoming-deliverables query engine, together with two frontend helper
functions embedded directly from the TypeScript source.

The backend service code is modelled from the specification (each such
definition carries a doc comment saying so); the frontend helpers
`uploadImportSkipInvalid` and `getDueUrgencyClass` are translated from
the TypeScript in the repository.
-/

namespace Aiig

/-- Uppercase a string character by character. -/
def upperStr (s : String) : String := ⟨s.data.map Char.toUpper⟩

/-- Lowercase a string character by character. -/
def lowerStr (s : String) : String := ⟨s.data.map Char.toLower⟩

/-- Split a character list into maximal whitespace-free words; `cur` holds the
current word reversed. -/
def wordsAux : List Char → List Char → List (List Char)
  | [], cur => if cur.isEmpty then [] else [cur.reverse]
  | c :: cs, cur =>
      if c.isWhitespace then
        if cur.isEmpty then wordsAux cs [] else cur.reverse :: wordsAux cs []
      else wordsAux cs (c :: cur)

/-- Join words with single spaces. -/
def joinWords : List (List Char) → List Char
  | [] => []
  | [w] => w
  | w :: ws => w ++ ' ' :: joinWords ws

/-- Modelled from the spec: the Row Cleaner's text normalization — trim
leading/trailing whitespace and collapse internal repeated whitespace to a
single space (spec section 4.3). -/
def cleanStr (s : String) : String := ⟨joinWords (wordsAux s.data [])⟩

/-- Modelled from the spec: the five allowed frequency codes (spec sections 3, 4.2). -/
def freqCodes : List String := ["M", "Q", "SA", "A", "OT"]

/-- Modelled from the spec: a frequency value matches case-insensitively one of
the five codes (spec section 4.2). -/
def freqValid (f : String) : Bool := freqCodes.contains (upperStr f)

/-- Modelled from the spec: a normalized spreadsheet row (spec section 4.1).
`dueDate` is the canonical parsed calendar date (as a day number), `none` when
the cell is absent or unparsable; `dueDateRaw` keeps the offending raw text for
error reporting. `frequency = none` means the field is entirely absent. -/
structure Row where
  project : String
  description : String
  dueDate : Option Int
  dueDateRaw : String
  frequency : Option String
  projectManager : String
deriving Repr, DecidableEq

/-- Modelled from the spec: a field-level validation error record
(spec section 4.2). -/
structure ValErr where
  row : Nat
  column : String
  value : Option String
  error : String
deriving Repr, DecidableEq

def requiredMsg : String := "required field is empty"
def badDateMsg : String := "could not parse due date"
def badFreqMsg : String := "invalid frequency code"

/-- Modelled from the spec: the Row Validator's per-field checks, row-number
independent part — ordered list of (column, offending value, message)
(spec section 4.2). -/
def rowErrors (r : Row) : List (String × Option String × String) :=
  (if cleanStr r.project = "" then [("project", some r.project, requiredMsg)] else []) ++
  (if cleanStr r.description = "" then [("description", some r.description, requiredMsg)] else []) ++
  (if cleanStr r.projectManager = "" then [("project_manager", some r.projectManager, requiredMsg)] else []) ++
  (match r.dueDate with
   | some _ => []
   | none => [("due_date", some r.dueDateRaw, badDateMsg)]) ++
  (match r.frequency with
   | none => []
   | some f => if freqValid f then [] else [("frequency", some f, badFreqMsg)])

/-- Modelled from the spec: the Row Validator attaches the 1-based row number
to every field error (spec section 4.2). -/
def validateRow (n : Nat) (r : Row) : List ValErr :=
  (rowErrors r).map (fun e => ⟨n, e.1, e.2.1, e.2.2⟩)

/-- Modelled from the spec: a row is valid when the Validator reports no
errors (spec section 4.2). -/
def rowValid (r : Row) : Bool := rowErrors r = []

/-- Modelled from the spec: the cleaned frequency code — uppercase
canonical form, with default OT applied only when the field is entirely
absent (spec sections 4.2, 4.3). -/
def effFrequency (r : Row) : String :=
  match r.frequency with
  | none => "OT"
  | some f => upperStr f

/-- Modelled from the spec: the dedup key tuple
(project, due date, frequency, description), computed on cleaned values
(spec section 4.4). -/
abbrev DedupKey := String × Int × String × String

/-- Modelled from the spec: the dedup key of a spreadsheet row (spec section 4.4). -/
def rowKey (r : Row) : DedupKey :=
  (cleanStr r.project, r.dueDate.getD 0, effFrequency r, cleanStr r.description)

/-- Embedded from src/unnamed/part_004, getDueUrgencyClass: CSS class for the
days-until-due cell of the upcoming-deliverables table. -/
def getDueUrgencyClass (daysUntilDue : Int) : String :=
  if daysUntilDue < 10 then "due-urgent"
  else if daysUntilDue ≥ 11 ∧ daysUntilDue ≤ 29 then "due-warning"
  else ""

/-- Embedded from src/unnamed/part_005, uploadImport: the value of the
skip_invalid query parameter sent with a commit-mode import, as a function of
the optional skipInvalid option (true unless the caller passes exactly false). -/
def uploadImportSkipInvalid (skipInvalid : Option Bool) : Bool :=
  match skipInvalid with
  | some false => false
  | _ => true

/-- Modelled from the spec: a persisted Manager record (spec section 3). -/
structure Manager where
  id : Nat
  name : String
deriving Repr, DecidableEq

/-- Modelled from the spec: a persisted Project record with its owning
manager reference (spec section 3). -/
structure Project where
  id : Nat
  name : String
  managerId : Nat
deriving Repr, DecidableEq

/-- Modelled from the spec: a persisted Deliverable record (spec section 3).
`projectName` is the cleaned project name the deliverable was created under,
used by the dedup key (spec section 4.4). -/
structure Deliverable where
  id : Nat
  projectId : Nat
  projectName : String
  description : String
  dueDate : Int
  frequency : String
deriving Repr, DecidableEq

/-- Modelled from the spec: the persistent storage visible to the Loader and
the Query Engine (spec section 6). -/
structure Storage where
  managers : List Manager
  projects : List Project
  deliverables : List Deliverable
  nextId : Nat
deriving Repr, DecidableEq

def emptyStorage : Storage := ⟨[], [], [], 0⟩

/-- Modelled from the spec: the dedup key of a persisted deliverable
(spec section 4.4). -/
def delivKey (d : Deliverable) : DedupKey :=
  (d.projectName, d.dueDate, d.frequency, d.description)

/-- Dedup keys of all persisted deliverables. -/
def storeKeys (st : Storage) : List DedupKey := st.deliverables.map delivKey

/-- Modelled from the spec: case-insensitive manager lookup by name
(spec section 4.6). -/
def findManager (st : Storage) (name : String) : Option Manager :=
  st.managers.find? (fun m => lowerStr m.name == lowerStr name)

/-- Modelled from the spec: case-insensitive project lookup by name
(spec section 4.6). -/
def findProject (st : Storage) (name : String) : Option Project :=
  st.projects.find? (fun p => lowerStr p.name == lowerStr name)

/-- Result of loading one row: updated storage plus how many managers and
projects were newly created for it. -/
structure LoadOut where
  store : Storage
  newManagers : Nat
  newProjects : Nat
deriving Repr, DecidableEq

/-- Modelled from the spec: the Loader's per-row step — resolve-or-create the
manager by cleaned name, resolve-or-create the project by cleaned name
(attaching the manager only at creation time), then insert the deliverable
with cleaned field values (spec section 4.6). `d` is the canonical due date of
the row (the row is valid, so it parsed). -/
def loadRow (st : Storage) (r : Row) (d : Int) : LoadOut :=
  let mName := cleanStr r.projectManager
  let afterM : Storage × Nat × Nat :=
    match findManager st mName with
    | some m => (st, m.id, 0)
    | none =>
        ({ st with managers := st.managers ++ [⟨st.nextId, mName⟩], nextId := st.nextId + 1 }, st.nextId, 1)
  let st1 := afterM.1
  let mId := afterM.2.1
  let pName := cleanStr r.project
  let afterP : Storage × Nat × Nat :=
    match findProject st1 pName with
    | some p => (st1, p.id, 0)
    | none =>
        ({ st1 with projects := st1.projects ++ [⟨st1.nextId, pName, mId⟩], nextId := st1.nextId + 1 }, st1.nextId, 1)
  let st2 := afterP.1
  let pId := afterP.2.1
  let newDeliv : Deliverable := ⟨st2.nextId, pId, pName, cleanStr r.description, d, effFrequency r⟩
  let st3 := { st2 with deliverables := st2.deliverables ++ [newDeliv], nextId := st2.nextId + 1 }
  ⟨st3, afterM.2.2, afterP.2.2⟩

def dupExistingMsg : String := "duplicate of existing record"
def dupBatchMsg : String := "duplicate within batch"

/-- How the pipeline disposes of one row in commit mode. -/
inductive RowOutcome where
  | invalid (errs : List ValErr)
  | dupExisting (e : ValErr)
  | dupBatch (e : ValErr)
  | accept (d : Int)
deriving Repr, DecidableEq

/-- Modelled from the spec: per-row classification in commit mode — validate,
then Duplicate Resolver check 1 (against deliverables persisted at import
start) and check 2 (against keys accepted earlier in the same batch), with
distinct skip reasons (spec sections 4.2, 4.4, 4.5). -/
def classifyRow (persistedKeys batch : List DedupKey) (n : Nat) (r : Row) :
    RowOutcome :=
  if rowValid r = true then
    match r.dueDate with
    | some d =>
        if rowKey r ∈ persistedKeys then
          .dupExisting ⟨n, "duplicate", some (cleanStr r.description), dupExistingMsg⟩
        else if rowKey r ∈ batch then
          .dupBatch ⟨n, "duplicate", some (cleanStr r.description), dupBatchMsg⟩
        else .accept d
    | none => .invalid (validateRow n r)
  else .invalid (validateRow n r)

/-- Accumulated outcome of a commit-mode batch. -/
structure ImpAcc where
  imported : Nat
  skipped : Nat
  errors : List ValErr
  managersCreated : Nat
  projectsCreated : Nat
  deliverablesCreated : Nat
  store : Storage
deriving Repr, DecidableEq

/-- Modelled from the spec: the Import Orchestrator's commit-mode loop with
skip-invalid enabled — each row is classified, skipped rows contribute their
errors, accepted rows are loaded and their key is added to the in-batch
dedup set (spec sections 4.4, 4.5, 4.6). -/
def importRows (persistedKeys : List DedupKey) (rows : List Row) (n : Nat)
    (batch : List DedupKey) (st : Storage) : ImpAcc :=
  match rows with
  | [] => ⟨0, 0, [], 0, 0, 0, st⟩
  | r :: rest =>
    match classifyRow persistedKeys batch n r with
    | .invalid errs =>
        let acc := importRows persistedKeys rest (n + 1) batch st
        { acc with skipped := acc.skipped + 1, errors := errs ++ acc.errors }
    | .dupExisting e =>
        let acc := importRows persistedKeys rest (n + 1) batch st
        { acc with skipped := acc.skipped + 1, errors := e :: acc.errors }
    | .dupBatch e =>
        let acc := importRows persistedKeys rest (n + 1) batch st
        { acc with skipped := acc.skipped + 1, errors := e :: acc.errors }
    | .accept d =>
        let out := loadRow st r d
        let acc := importRows persistedKeys rest (n + 1) (rowKey r :: batch) out.store
        { acc with imported := acc.imported + 1, managersCreated := acc.managersCreated + out.newManagers, projectsCreated := acc.projectsCreated + out.newProjects, deliverablesCreated := acc.deliverablesCreated + 1 }

/-- Modelled from the spec: the import result summary returned to the caller
(spec section 6). -/
structure ImportResult where
  success : Bool
  totalRows : Nat
  importedRows : Nat
  skippedRows : Nat
  errors : List ValErr
  managersCreated : Nat
  projectsCreated : Nat
  deliverablesCreated : Nat
deriving Repr, DecidableEq

/-- Validation errors of a whole batch, with 1-based row numbers. -/
def allErrors (rows : List Row) (n : Nat) : List ValErr :=
  match rows with
  | [] => []
  | r :: rest => validateRow n r ++ allErrors rest (n + 1)

/-- Modelled from the spec: the commit-mode Import Orchestrator. With the
skip-invalid flag disabled, any invalid row aborts the whole import before any
writes; otherwise invalid and duplicate rows are skipped and the rest is
loaded. In every case total rows = imported + skipped (spec section 4.5). -/
def importFile (st : Storage) (rows : List Row) (skipInvalid : Bool) :
    ImportResult × Storage :=
  if skipInvalid = false ∧ rows.any (fun r => rowValid r = false) then
    (⟨false, rows.length, 0, rows.length, allErrors rows 1, 0, 0, 0⟩, st)
  else
    let acc := importRows (storeKeys st) rows 1 [] st
    (⟨true, rows.length, acc.imported, acc.skipped, acc.errors,
      acc.managersCreated, acc.projectsCreated, acc.deliverablesCreated⟩,
     acc.store)

/-- Modelled from the spec: explicit manager creation with case-insensitive
name uniqueness (spec section 3). -/
def createManager (st : Storage) (name : String) : Except String Storage :=
  match findManager st name with
  | some _ => .error "manager with this name already exists"
  | none => .ok { st with managers := st.managers ++ [⟨st.nextId, name⟩], nextId := st.nextId + 1 }

/-- Modelled from the spec: explicit project creation, referencing an
existing manager, with name uniqueness (spec section 3). -/
def createProject (st : Storage) (name : String) (managerId : Nat) : Except String Storage :=
  if (st.managers.find? (fun m => m.id == managerId)).isNone then .error "manager not found"
  else match findProject st name with
    | some _ => .error "project with this name already exists"
    | none => .ok { st with projects := st.projects ++ [⟨st.nextId, name, managerId⟩], nextId := st.nextId + 1 }

/-- Modelled from the spec: single deliverable creation — an entry matching an
existing deliverable on (project, due date, frequency, description) is
rejected as a duplicate conflict (spec sections 3, 4.4; see also
src/frontend/src/components/AddDeliverableForm.tsx which surfaces this
conflict). -/
def createDeliverable (st : Storage) (projectId : Nat) (description : String)
    (dueDate : Int) (frequency : String) : Except String Storage :=
  match st.projects.find? (fun p => p.id == projectId) with
  | none => .error "project not found"
  | some p =>
    if freqValid frequency = false then .error "invalid frequency code"
    else
      let d : Deliverable := ⟨st.nextId, p.id, p.name, description, dueDate, upperStr frequency⟩
      if delivKey d ∈ storeKeys st then .error "duplicate deliverable"
      else .ok { st with deliverables := st.deliverables ++ [d], nextId := st.nextId + 1 }

/-- Modelled from the spec: the states reachable from empty storage by the
operations of the core — explicit creation of managers, projects and
deliverables, and commit-mode import (spec section 3, lifecycle). -/
inductive Reachable : Storage → Prop where
  | init : Reachable emptyStorage
  | newManager {st st' : Storage} (name : String) :
      Reachable st → createManager st name = .ok st' → Reachable st'
  | newProject {st st' : Storage} (name : String) (managerId : Nat) :
      Reachable st → createProject st name managerId = .ok st' → Reachable st'
  | newDeliverable {st st' : Storage} (projectId : Nat) (description : String)
      (dueDate : Int) (frequency : String) :
      Reachable st → createDeliverable st projectId description dueDate frequency = .ok st' →
      Reachable st'
  | imported {st : Storage} (rows : List Row) (skipInvalid : Bool) :
      Reachable st → Reachable (importFile st rows skipInvalid).2

/-- Modelled from the spec: one row of the preview result
(spec sections 4.5, 6). -/
structure PreviewRow where
  rowNumber : Nat
  project : String
  deliverable : String
  frequency : String
  projectManager : String
  isValid : Bool
  validationErrors : List String
deriving Repr, DecidableEq

/-- Modelled from the spec: preview of a single row — validity, error
messages (including Duplicate Resolver check 1 against persisted rows) and
cleaned display values; the storage is threaded through untouched
(spec section 4.5). -/
def previewRow (st : Storage) (n : Nat) (r : Row) : PreviewRow × Storage :=
  let errs := (validateRow n r).map (fun e => e.error)
  let dupErrs := if rowValid r = true ∧ rowKey r ∈ storeKeys st then [dupExistingMsg] else []
  (⟨n, cleanStr r.project, cleanStr r.description, effFrequency r, cleanStr r.projectManager, rowValid r, errs ++ dupErrs⟩, st)

/-- Modelled from the spec: the preview loop over all rows, threading the
storage through each per-row step (spec section 4.5). -/
def previewRows (st : Storage) (n : Nat) (rows : List Row) : List PreviewRow × Storage :=
  match rows with
  | [] => ([], st)
  | r :: rest =>
    let step := previewRow st n r
    let next := previewRows step.2 (n + 1) rest
    (step.1 :: next.1, next.2)

/-- Modelled from the spec: the preview (dry-run) result summary
(spec section 6). -/
structure PreviewResult where
  totalRows : Nat
  validRows : Nat
  invalidRows : Nat
  previewData : List PreviewRow
deriving Repr, DecidableEq

/-- Modelled from the spec: the preview (dry-run) mode of the Import
Orchestrator — full pipeline per row, never writes to storage
(spec section 4.5). -/
def previewFile (st : Storage) (rows : List Row) : PreviewResult × Storage :=
  let run := previewRows st 1 rows
  (⟨rows.length, (run.1.filter (fun pr => pr.isValid)).length, (run.1.filter (fun pr => pr.isValid = false)).length, run.1⟩, run.2)

/-- Modelled from the spec: the manager owning a deliverable, through its
project (spec section 3). -/
def managerOf (st : Storage) (d : Deliverable) : Option Nat :=
  (st.projects.find? (fun p => p.id == d.projectId)).map (fun p => p.managerId)

/-- Modelled from the spec: the optional project and manager filters of the
upcoming query (spec section 4.7). -/
def passesFilters (st : Storage) (pid mid : Option Nat) (d : Deliverable) : Bool :=
  (match pid with
   | none => true
   | some p => d.projectId == p) &&
  (match mid with
   | none => true
   | some m => managerOf st d == some m)

/-- Modelled from the spec: the inclusive day window [today, today + days]
(spec section 4.7). -/
def inWindow (today days : Int) (d : Deliverable) : Bool :=
  today ≤ d.dueDate && d.dueDate ≤ today + days

/-- Modelled from the spec: an overdue deliverable qualifies when
include_overdue is set and a project filter is given (spec section 4.7). -/
def overdueQualifies (pid : Option Nat) (includeOverdue : Bool) (today : Int)
    (d : Deliverable) : Bool :=
  includeOverdue && pid.isSome && d.dueDate < today

/-- Modelled from the spec: the selection rule of the Upcoming Query Engine
(spec section 4.7). -/
def qualifies (st : Storage) (today days : Int) (pid mid : Option Nat)
    (includeOverdue : Bool) (d : Deliverable) : Bool :=
  passesFilters st pid mid d && (inWindow today days d || overdueQualifies pid includeOverdue today d)

/-- Modelled from the spec: an annotated query result item (spec section 4.7). -/
structure DeliverableOut where
  id : Nat
  projectId : Nat
  description : String
  dueDate : Int
  frequency : String
  daysUntilDue : Int
  isOverdue : Bool
  frequencyDisplay : String
deriving Repr, DecidableEq

/-- Modelled from the spec: the human-readable label of a frequency code
(spec sections 3, 4.7). -/
def frequencyDisplay (f : String) : String :=
  if f = "M" then "Monthly"
  else if f = "Q" then "Quarterly"
  else if f = "SA" then "Semi-Annual"
  else if f = "A" then "Annual"
  else if f = "OT" then "One-Time"
  else f

/-- Modelled from the spec: annotation of a selected deliverable with
days-until-due, overdue flag and display label (spec section 4.7). -/
def annotate (today : Int) (d : Deliverable) : DeliverableOut :=
  ⟨d.id, d.projectId, d.description, d.dueDate, d.frequency, d.dueDate - today, decide (d.dueDate - today < 0), frequencyDisplay d.frequency⟩

/-- Modelled from the spec: the query sort order — ascending due date, ties
broken by deliverable identity (spec section 4.7). -/
def delivLe (a b : Deliverable) : Prop :=
  a.dueDate < b.dueDate ∨ (a.dueDate = b.dueDate ∧ a.id ≤ b.id)

instance : DecidableRel delivLe := fun a b => by
  unfold delivLe
  infer_instance

instance : IsTotal Deliverable delivLe := by
  constructor
  intro a b
  unfold delivLe
  omega

instance : IsTrans Deliverable delivLe := by
  constructor
  intro a b c
  unfold delivLe
  omega

def daysRangeMsg : String := "days must be between 1 and 365"

/-- Modelled from the spec: the Upcoming Query Engine — out-of-range days is
an input-validation failure; otherwise filter, sort and annotate
(spec sections 4.7, 7). -/
def upcoming (st : Storage) (today days : Int) (pid mid : Option Nat)
    (includeOverdue : Bool) : Except String (List DeliverableOut) :=
  if days < 1 ∨ days > 365 then .error daysRangeMsg
  else .ok (((st.deliverables.filter (qualifies st today days pid mid includeOverdue)).insertionSort delivLe).map (annotate today))

/-- C10: getDueUrgencyClass returns "due-urgent" exactly when days until due
is below 10 (overdue values included), "due-warning" exactly when it is
between 11 and 29 inclusive, and the empty string otherwise — in particular a
deliverable due in exactly 10 days gets no urgency class while 9 and 11 both do. -/
theorem due_urgency_class_spec (d : Int) :
    (getDueUrgencyClass d = "due-urgent" ↔ d < 10) ∧
    (getDueUrgencyClass d = "due-warning" ↔ (11 ≤ d ∧ d ≤ 29)) ∧
    (getDueUrgencyClass d = "" ↔ (d = 10 ∨ 30 ≤ d)) ∧
    getDueUrgencyClass 10 = "" ∧
    getDueUrgencyClass 9 = "due-urgent" ∧
    getDueUrgencyClass 11 = "due-warning" := by
  refine ⟨?_, ?_, ?_, by decide, by decide, by decide⟩ <;>
    (unfold getDueUrgencyClass; split_ifs with h1 h2 <;> simp <;> omega)

/-- Every row contributes exactly one to either the imported or the skipped
count of a commit-mode batch. -/
theorem importRows_imported_add_skipped (K : List DedupKey) (rows : List Row)
    (n : Nat) (batch : List DedupKey) (st : Storage) :
    (importRows K rows n batch st).imported + (importRows K rows n batch st).skipped = rows.length := by
  induction rows generalizing n batch st with
  | nil => simp [importRows]
  | cons r rest ih =>
    cases hc : classifyRow K batch n r with
    | invalid errs =>
        simp only [importRows, hc, List.length_cons]
        have h := ih (n + 1) batch st
        omega
    | dupExisting e =>
        simp only [importRows, hc, List.length_cons]
        have h := ih (n + 1) batch st
        omega
    | dupBatch e =>
        simp only [importRows, hc, List.length_cons]
        have h := ih (n + 1) batch st
        omega
    | accept d =>
        simp only [importRows, hc, List.length_cons]
        have h := ih (n + 1) (rowKey r :: batch) (loadRow st r d).store
        omega

/-- C1: for every commit-mode import, the returned result satisfies
total_rows = imported_rows + skipped_rows, whatever the mix of validation
failures and duplicates among the skipped rows. -/
theorem total_eq_imported_add_skipped (st : Storage) (rows : List Row) (skipInvalid : Bool) :
    (importFile st rows skipInvalid).1.totalRows =
      (importFile st rows skipInvalid).1.importedRows + (importFile st rows skipInvalid).1.skippedRows := by
  unfold importFile
  split
  · simp
  · have h := importRows_imported_add_skipped (storeKeys st) rows 1 [] st
    simp
    omega

/-- C8: an upcoming query whose days parameter lies outside [1, 365] is
reported to the caller as an input-validation failure, not silently clamped. -/
theorem days_out_of_range_error (st : Storage) (today days : Int)
    (pid mid : Option Nat) (io : Bool) (h : days < 1 ∨ days > 365) :
    upcoming st today days pid mid io = .error daysRangeMsg := by
  unfold upcoming
  rw [if_pos h]

theorem days_out_of_range_error_witness :
    upcoming emptyStorage 0 0 none none false = .error daysRangeMsg ∧
    upcoming emptyStorage 0 366 none none false = .error daysRangeMsg :=
  ⟨days_out_of_range_error emptyStorage 0 0 none none false (by decide),
   days_out_of_range_error emptyStorage 0 366 none none false (by decide)⟩

/-- The preview loop threads the storage through unchanged. -/
theorem previewRows_store (rows : List Row) (st : Storage) (n : Nat) :
    (previewRows st n rows).2 = st := by
  induction rows generalizing n st with
  | nil => simp [previewRows]
  | cons r rest ih => simp [previewRows, previewRow, ih]

/-- C9: preview (dry-run) never mutates storage — for every input row set,
with any mix of valid, invalid and duplicate rows, all persisted managers,
projects and deliverables are left unchanged. -/
theorem preview_pure (st : Storage) (rows : List Row) :
    (previewFile st rows).2 = st := by
  unfold previewFile
  simp [previewRows_store]

/-- C7: the commit-mode skip-invalid flag defaults to true — the frontend
uploadImport sends skip_invalid=false exactly when the caller passes
skipInvalid = false, and with the flag disabled an invalid row makes the
whole import abort before any writes. -/
theorem skip_invalid_default :
    (∀ o : Option Bool, uploadImportSkipInvalid o = false ↔ o = some false) ∧
    (∀ (st : Storage) (rows : List Row),
      rows.any (fun r => rowValid r = false) = true →
      (importFile st rows false).2 = st ∧ (importFile st rows false).1.success = false) := by
  constructor
  · intro o
    cases o with
    | none => simp [uploadImportSkipInvalid]
    | some b => cases b <;> simp [uploadImportSkipInvalid]
  · intro st rows h
    unfold importFile
    rw [if_pos ⟨rfl, h⟩]
    exact ⟨rfl, rfl⟩

/-- Example valid row for concrete witnesses. -/
def exRowValid : Row := ⟨"Alpha", "Report", some 100, "2026-02-20", some "M", "Jane Doe"⟩

/-- Example row invalid because its project name is empty. -/
def exRowInvalid : Row := ⟨"", "Report", some 100, "2026-02-20", some "M", "Jane Doe"⟩

/-- Example row with a present-but-invalid frequency code. -/
def exRowFreqX : Row := ⟨"Alpha", "Report", some 100, "2026-02-20", some "X", "Jane Doe"⟩

/-- Example row with the frequency field entirely absent. -/
def exRowFreqAbsent : Row := ⟨"Alpha", "Report", some 100, "2026-02-20", none, "Jane Doe"⟩

/-- Example persisted deliverable for query-engine witnesses. -/
def exDeliv : Deliverable := ⟨1, 5, "Alpha", "Report", 30, "M"⟩

/-- Example storage holding one manager, one project and one deliverable. -/
def exStore : Storage := ⟨[⟨0, "Jane Doe"⟩], [⟨5, "Alpha", 0⟩], [exDeliv], 6⟩

theorem skip_invalid_default_witness :
    (uploadImportSkipInvalid (some false) = false ↔ some false = some false) ∧
    ((importFile emptyStorage [exRowInvalid] false).2 = emptyStorage ∧
     (importFile emptyStorage [exRowInvalid] false).1.success = false) :=
  ⟨skip_invalid_default.1 (some false),
   skip_invalid_default.2 emptyStorage [exRowInvalid] (by decide)⟩

/-- C6: a present frequency value that does not case-insensitively match one
of M, Q, SA, A, OT makes the row invalid with a frequency error (never
coerced), while an absent frequency defaults to OT and the row stays valid
when its other fields are valid. -/
theorem frequency_validation :
    (∀ (r : Row) (f : String) (n : Nat), r.frequency = some f → freqValid f = false →
      rowValid r = false ∧
      ∃ e ∈ validateRow n r, e.column = "frequency" ∧ e.value = some f ∧ e.error = badFreqMsg) ∧
    (∀ r : Row, r.frequency = none →
      cleanStr r.project ≠ "" → cleanStr r.description ≠ "" →
      cleanStr r.projectManager ≠ "" → r.dueDate.isSome = true →
      rowValid r = true ∧ effFrequency r = "OT") := by
  constructor
  · intro r f n hf hfv
    have hmem : ("frequency", some f, badFreqMsg) ∈ rowErrors r := by
      unfold rowErrors
      simp [hf, hfv]
    constructor
    · simp only [rowValid, decide_eq_false_iff_not]
      exact List.ne_nil_of_mem hmem
    · exact ⟨⟨n, "frequency", some f, badFreqMsg⟩, List.mem_map_of_mem _ hmem, rfl, rfl, rfl⟩
  · intro r hf hp hd hm hds
    obtain ⟨dd, hdd⟩ := Option.isSome_iff_exists.mp hds
    constructor
    · simp [rowValid, rowErrors, hf, hp, hd, hm, hdd]
    · simp [effFrequency, hf]

theorem frequency_validation_witness :
    (rowValid exRowFreqX = false ∧
     ∃ e ∈ validateRow 1 exRowFreqX, e.column = "frequency" ∧ e.value = some "X" ∧ e.error = badFreqMsg) ∧
    (rowValid exRowFreqAbsent = true ∧ effFrequency exRowFreqAbsent = "OT") :=
  ⟨frequency_validation.1 exRowFreqX "X" 1 rfl (by decide),
   frequency_validation.2 exRowFreqAbsent rfl (by decide) (by decide) (by decide) rfl⟩

/-- C2: membership in an upcoming query result is decided by the inclusive
window [today, today + days] — with days = 30 a deliverable due exactly
today + 30 qualifies and one due today + 31 never does; an overdue
deliverable (due before today) qualifies exactly when include_overdue is set
together with a project filter the deliverable belongs to. -/
theorem upcoming_window_semantics :
    (∀ (st : Storage) (today days : Int) (pid mid : Option Nat) (io : Bool)
        (l : List DeliverableOut),
      upcoming st today days pid mid io = .ok l →
      ∀ x, x ∈ l ↔ ∃ d, d ∈ st.deliverables ∧
        qualifies st today days pid mid io d = true ∧ annotate today d = x) ∧
    (∀ (st : Storage) (today : Int) (pid mid : Option Nat) (io : Bool) (d : Deliverable),
      passesFilters st pid mid d = true → d.dueDate = today + 30 →
      qualifies st today 30 pid mid io d = true) ∧
    (∀ (st : Storage) (today : Int) (pid mid : Option Nat) (io : Bool) (d : Deliverable),
      d.dueDate = today + 31 →
      qualifies st today 30 pid mid io d = false) ∧
    (∀ (st : Storage) (today days : Int) (pid mid : Option Nat) (io : Bool) (d : Deliverable),
      d.dueDate < today → passesFilters st pid mid d = true →
      (qualifies st today days pid mid io d = true ↔
        (io = true ∧ ∃ p, pid = some p ∧ d.projectId = p))) := by
  refine ⟨?_, ?_, ?_, ?_⟩
  · intro st today days pid mid io l h x
    unfold upcoming at h
    split at h
    · cases h
    · cases h
      simp [List.mem_map, List.mem_filter, and_assoc]
  · intro st today pid mid io d hpf hd
    have h1 : inWindow today 30 d = true := by
      simp only [inWindow, hd, Bool.and_eq_true, decide_eq_true_eq]
      omega
    simp [qualifies, hpf, h1]
  · intro st today pid mid io d hd
    have h1 : inWindow today 30 d = false := by
      simp only [inWindow, hd]
      have : ¬ (today + 31 ≤ today + 30) := by omega
      simp [this]
    have h2 : overdueQualifies pid io today d = false := by
      simp only [overdueQualifies, hd]
      have : ¬ (today + 31 < today) := by omega
      simp [this]
    simp [qualifies, h1, h2]
  · intro st today days pid mid io d hlt hpf
    have h1 : inWindow today days d = false := by
      simp only [inWindow]
      have : ¬ (today ≤ d.dueDate) := by omega
      simp [this]
    constructor
    · intro hq
      simp only [qualifies, hpf, h1, Bool.true_and, Bool.false_or,
        overdueQualifies, Bool.and_eq_true, decide_eq_true_eq] at hq
      obtain ⟨⟨hio, hsome⟩, _⟩ := hq
      obtain ⟨p, hp⟩ := Option.isSome_iff_exists.mp hsome
      refine ⟨hio, p, hp, ?_⟩
      simp only [passesFilters, hp, Bool.and_eq_true, beq_iff_eq] at hpf
      exact hpf.1
    · rintro ⟨hio, p, hp, _⟩
      have h2 : overdueQualifies pid io today d = true := by
        simp [overdueQualifies, hio, hp, hlt]
      simp [qualifies, hpf, h1, h2]

theorem upcoming_window_semantics_witness :
    (∀ x, x ∈ [annotate 0 exDeliv] ↔ ∃ d, d ∈ exStore.deliverables ∧
      qualifies exStore 0 30 none none false d = true ∧ annotate 0 d = x) ∧
    qualifies exStore 0 30 none none false exDeliv = true ∧
    qualifies exStore (-1) 30 none none false exDeliv = false ∧
    (qualifies exStore 31 30 (some 5) none true exDeliv = true ↔
      (true = true ∧ ∃ p, (some 5 : Option Nat) = some p ∧ exDeliv.projectId = p)) :=
  ⟨upcoming_window_semantics.1 exStore 0 30 none none false [annotate 0 exDeliv] (by rfl),
   upcoming_window_semantics.2.1 exStore 0 none none false exDeliv (by decide) (by decide),
   upcoming_window_semantics.2.2.1 exStore (-1) none none false exDeliv (by decide),
   upcoming_window_semantics.2.2.2 exStore 31 30 (some 5) none true exDeliv (by decide) (by decide)⟩

/-- C5: every upcoming query result is sorted ascending by due date, ties
broken by deliverable identity — and when the stored deliverable ids are
distinct the tie-break is strict, so the output order is deterministic. -/
theorem upcoming_sorted (st : Storage) (today days : Int) (pid mid : Option Nat)
    (io : Bool) (l : List DeliverableOut) (h : upcoming st today days pid mid io = .ok l) :
    l.Pairwise (fun a b => a.dueDate < b.dueDate ∨ (a.dueDate = b.dueDate ∧ a.id ≤ b.id)) ∧
    ((st.deliverables.map (fun d => d.id)).Nodup →
      l.Pairwise (fun a b => a.dueDate < b.dueDate ∨ (a.dueDate = b.dueDate ∧ a.id < b.id))) := by
  unfold upcoming at h
  split at h
  · cases h
  · cases h
    constructor
    · refine List.pairwise_map.mpr ?_
      refine (List.sorted_insertionSort delivLe _).imp ?_
      intro a b hab
      simpa [annotate, delivLe] using hab
    · intro hnd
      have hne : st.deliverables.Pairwise (fun a b => a.id ≠ b.id) :=
        List.pairwise_map.mp hnd
      have hnef : (st.deliverables.filter (qualifies st today days pid mid io)).Pairwise
          (fun a b => a.id ≠ b.id) :=
        hne.sublist (List.filter_sublist _)
      have hnes : ((st.deliverables.filter (qualifies st today days pid mid io)).insertionSort delivLe).Pairwise
          (fun a b => a.id ≠ b.id) :=
        ((List.perm_insertionSort delivLe _).pairwise_iff (fun hab => hab.symm)).mpr hnef
      have hsorted := List.sorted_insertionSort delivLe
        (st.deliverables.filter (qualifies st today days pid mid io))
      refine List.pairwise_map.mpr ?_
      refine (hsorted.and hnes).imp ?_
      intro a b hab
      simp only [annotate]
      rcases hab with ⟨hle, hne2⟩
      rcases hle with hlt | ⟨heq, hle2⟩
      · exact Or.inl hlt
      · exact Or.inr ⟨heq, lt_of_le_of_ne hle2 hne2⟩

theorem upcoming_sorted_witness :
    ([annotate 0 exDeliv].Pairwise
      (fun a b => a.dueDate < b.dueDate ∨ (a.dueDate = b.dueDate ∧ a.id ≤ b.id))) ∧
    ((exStore.deliverables.map (fun d => d.id)).Nodup →
      [annotate 0 exDeliv].Pairwise
        (fun a b => a.dueDate < b.dueDate ∨ (a.dueDate = b.dueDate ∧ a.id < b.id))) :=
  upcoming_sorted exStore 0 30 none none false [annotate 0 exDeliv] (by rfl)

/-- A valid row has a parsed due date. -/
theorem rowValid_dueDate {r : Row} (h : rowValid r = true) : ∃ d, r.dueDate = some d := by
  cases hd : r.dueDate with
  | some d => exact ⟨d, rfl⟩
  | none =>
    exfalso
    simp only [rowValid, decide_eq_true_eq] at h
    rw [rowErrors, hd] at h
    simp [List.append_eq_nil] at h

/-- The dedup key of a row with parsed due date d. -/
theorem rowKey_eq {r : Row} {d : Int} (h : r.dueDate = some d) :
    rowKey r = (cleanStr r.project, d, effFrequency r, cleanStr r.description) := by
  simp [rowKey, h]

/-- Loading a row appends exactly one deliverable, whose dedup key is the
row's key; existing deliverables are untouched. -/
theorem storeKeys_loadRow (st : Storage) (r : Row) (d : Int) :
    storeKeys (loadRow st r d).store =
      storeKeys st ++ [(cleanStr r.project, d, effFrequency r, cleanStr r.description)] := by
  unfold loadRow
  dsimp only
  split <;> split <;> simp [storeKeys, delivKey]

/-- Inversion of the accept outcome: the row is valid, its due date parsed to
d, and its key collides neither with persisted rows nor with the batch. -/
theorem classifyRow_accept {K batch : List DedupKey} {n : Nat} {r : Row} {d : Int}
    (h : classifyRow K batch n r = .accept d) :
    rowValid r = true ∧ r.dueDate = some d ∧ rowKey r ∉ K ∧ rowKey r ∉ batch := by
  by_cases hv : rowValid r = true
  · obtain ⟨d0, hd⟩ := rowValid_dueDate hv
    by_cases hK : rowKey r ∈ K
    · simp [classifyRow, hv, hd, hK] at h
    · by_cases hB : rowKey r ∈ batch
      · simp [classifyRow, hv, hd, hK, hB] at h
      · simp [classifyRow, hv, hd, hK, hB] at h
        exact ⟨hv, h ▸ hd, hK, hB⟩
  · simp [classifyRow, hv] at h

/-- Deliverable keys already in storage survive a commit-mode batch. -/
theorem importRows_store_mono (K : List DedupKey) (rows : List Row) (n : Nat)
    (batch : List DedupKey) (st : Storage) {k : DedupKey} (h : k ∈ storeKeys st) :
    k ∈ storeKeys (importRows K rows n batch st).store := by
  induction rows generalizing n batch st with
  | nil => simpa [importRows]
  | cons r rest ih =>
    cases hc : classifyRow K batch n r with
    | invalid errs => simp only [importRows, hc]; exact ih (n + 1) batch st h
    | dupExisting e => simp only [importRows, hc]; exact ih (n + 1) batch st h
    | dupBatch e => simp only [importRows, hc]; exact ih (n + 1) batch st h
    | accept d =>
      simp only [importRows, hc]
      refine ih (n + 1) (rowKey r :: batch) (loadRow st r d).store ?_
      rw [storeKeys_loadRow]
      exact List.mem_append_left _ h

/-- A commit-mode batch preserves distinctness of persisted dedup keys,
as long as every persisted key is covered by the persisted-keys snapshot or
the in-batch set. -/
theorem importRows_nodup (K : List DedupKey) (rows : List Row) (n : Nat)
    (batch : List DedupKey) (st : Storage)
    (hnd : (storeKeys st).Nodup)
    (hsub : ∀ k ∈ storeKeys st, k ∈ K ∨ k ∈ batch) :
    (storeKeys (importRows K rows n batch st).store).Nodup := by
  induction rows generalizing n batch st with
  | nil => simpa [importRows]
  | cons r rest ih =>
    cases hc : classifyRow K batch n r with
    | invalid errs => simp only [importRows, hc]; exact ih (n + 1) batch st hnd hsub
    | dupExisting e => simp only [importRows, hc]; exact ih (n + 1) batch st hnd hsub
    | dupBatch e => simp only [importRows, hc]; exact ih (n + 1) batch st hnd hsub
    | accept d =>
      obtain ⟨hv, hd, hK, hB⟩ := classifyRow_accept hc
      have hnotst : rowKey r ∉ storeKeys st := by
        intro hmem
        rcases hsub _ hmem with h | h
        · exact hK h
        · exact hB h
      simp only [importRows, hc]
      apply ih (n + 1) (rowKey r :: batch) (loadRow st r d).store
      · rw [storeKeys_loadRow, ← rowKey_eq hd]
        refine List.Nodup.append hnd (List.nodup_singleton _) ?_
        intro k hk1 hk2
        rw [List.mem_singleton] at hk2
        subst hk2
        exact hnotst hk1
      · intro k hk
        rw [storeKeys_loadRow, ← rowKey_eq hd] at hk
        rcases List.mem_append.mp hk with hk | hk
        · rcases hsub k hk with h | h
          · exact Or.inl h
          · exact Or.inr (List.mem_cons_of_mem _ h)
        · rw [List.mem_singleton] at hk
          subst hk
          exact Or.inr (List.mem_cons_self _ _)

/-- Creating a manager does not touch the deliverables. -/
theorem createManager_storeKeys {st st' : Storage} {name : String}
    (h : createManager st name = .ok st') : storeKeys st' = storeKeys st := by
  unfold createManager at h
  split at h
  · cases h
  · cases h
    simp [storeKeys]

/-- Creating a project does not touch the deliverables. -/
theorem createProject_storeKeys {st st' : Storage} {name : String} {mid : Nat}
    (h : createProject st name mid = .ok st') : storeKeys st' = storeKeys st := by
  unfold createProject at h
  split at h
  · cases h
  · split at h
    · cases h
    · cases h
      simp [storeKeys]

/-- Single deliverable creation preserves distinctness of dedup keys. -/
theorem createDeliverable_nodup {st st' : Storage} {pid : Nat} {desc : String}
    {due : Int} {freq : String}
    (h : createDeliverable st pid desc due freq = .ok st')
    (hnd : (storeKeys st).Nodup) : (storeKeys st').Nodup := by
  unfold createDeliverable at h
  split at h
  · cases h
  · dsimp only at h
    split at h
    · cases h
    · split at h
      · cases h
      · rename_i hk
        cases h
        simp only [storeKeys, List.map_append, List.map_cons, List.map_nil]
        refine List.Nodup.append hnd (List.nodup_singleton _) ?_
        intro k hk1 hk2
        rw [List.mem_singleton] at hk2
        subst hk2
        exact hk hk1

/-- Commit-mode import preserves distinctness of dedup keys. -/
theorem importFile_nodup {st : Storage} {rows : List Row} {skipInvalid : Bool}
    (hnd : (storeKeys st).Nodup) :
    (storeKeys (importFile st rows skipInvalid).2).Nodup := by
  unfold importFile
  split
  · simpa
  · exact importRows_nodup (storeKeys st) rows 1 [] st hnd (fun k hk => Or.inl hk)

/-- C3: at every reachable state no two persisted deliverables share the
(project, due date, frequency, description) dedup tuple — every operation
preserves this — and within one import batch the first occurrence of a key
wins while the later occurrence is skipped with a duplicate-within-batch
reason distinct from the duplicate-of-existing-record reason. -/
theorem dedup_invariant :
    (∀ st, Reachable st → (storeKeys st).Nodup) ∧
    (∀ (st : Storage) (r1 r2 : Row),
      rowValid r1 = true → rowValid r2 = true → rowKey r1 = rowKey r2 →
      rowKey r1 ∉ storeKeys st →
      (importFile st [r1, r2] true).1.importedRows = 1 ∧
      (importFile st [r1, r2] true).1.skippedRows = 1 ∧
      (∃ e ∈ (importFile st [r1, r2] true).1.errors, e.error = dupBatchMsg) ∧
      dupBatchMsg ≠ dupExistingMsg) := by
  constructor
  · intro st h
    induction h with
    | init => simp [storeKeys, emptyStorage]
    | newManager name a heq ih => rw [createManager_storeKeys heq]; exact ih
    | newProject name mid a heq ih => rw [createProject_storeKeys heq]; exact ih
    | newDeliverable pid desc due freq a heq ih => exact createDeliverable_nodup heq ih
    | imported rows skipInvalid a ih => exact importFile_nodup ih
  · intro st r1 r2 hv1 hv2 hkeq hknot
    obtain ⟨d1, hd1⟩ := rowValid_dueDate hv1
    obtain ⟨d2, hd2⟩ := rowValid_dueDate hv2
    have hc1 : classifyRow (storeKeys st) [] 1 r1 = .accept d1 := by
      simp [classifyRow, hv1, hd1, hknot]
    have hk2K : rowKey r2 ∉ storeKeys st := hkeq ▸ hknot
    have hc2 : classifyRow (storeKeys st) [rowKey r1] 2 r2 =
        .dupBatch ⟨2, "duplicate", some (cleanStr r2.description), dupBatchMsg⟩ := by
      simp [classifyRow, hv2, hd2, hk2K, hkeq.symm, hknot]
    refine ⟨?_, ?_, ?_, by decide⟩ <;>
      simp [importFile, importRows, hc1, hc2]

theorem dedup_invariant_witness :
    (storeKeys (importFile emptyStorage [exRowValid] true).2).Nodup ∧
    ((importFile emptyStorage [exRowValid, exRowValid] true).1.importedRows = 1 ∧
     (importFile emptyStorage [exRowValid, exRowValid] true).1.skippedRows = 1 ∧
     (∃ e ∈ (importFile emptyStorage [exRowValid, exRowValid] true).1.errors,
        e.error = dupBatchMsg) ∧
     dupBatchMsg ≠ dupExistingMsg) :=
  ⟨dedup_invariant.1 _ (Reachable.imported [exRowValid] true Reachable.init),
   dedup_invariant.2 emptyStorage exRowValid exRowValid (by decide) (by decide) rfl (by decide)⟩

/-- If every row of a batch was imported, then every row was valid and its
dedup key is persisted in the resulting storage. -/
theorem importRows_full_success (K : List DedupKey) (rows : List Row) (n : Nat)
    (batch : List DedupKey) (st : Storage)
    (h : (importRows K rows n batch st).imported = rows.length) :
    ∀ r ∈ rows, rowValid r = true ∧
      rowKey r ∈ storeKeys (importRows K rows n batch st).store := by
  induction rows generalizing n batch st with
  | nil => simp
  | cons r rest ih =>
    have htot := importRows_imported_add_skipped K rest (n + 1) batch st
    cases hc : classifyRow K batch n r with
    | invalid errs =>
        exfalso
        simp only [importRows, hc, List.length_cons] at h
        omega
    | dupExisting e =>
        exfalso
        simp only [importRows, hc, List.length_cons] at h
        omega
    | dupBatch e =>
        exfalso
        simp only [importRows, hc, List.length_cons] at h
        omega
    | accept d =>
        obtain ⟨hv, hd, hK, hB⟩ := classifyRow_accept hc
        simp only [importRows, hc, List.length_cons] at h ⊢
        have h' : (importRows K rest (n + 1) (rowKey r :: batch) (loadRow st r d).store).imported = rest.length := by
          omega
        intro x hx
        rcases List.mem_cons.mp hx with rfl | hx
        · refine ⟨hv, ?_⟩
          apply importRows_store_mono
          rw [storeKeys_loadRow, ← rowKey_eq hd]
          exact List.mem_append_right _ (List.mem_singleton.mpr rfl)
        · exact ih (n + 1) (rowKey r :: batch) (loadRow st r d).store h' x hx

/-- If every row of a batch is valid and its key already persisted, the whole
batch is skipped: nothing imported, every error a duplicate-of-existing
record, storage unchanged. -/
theorem importRows_all_dup (K : List DedupKey) (rows : List Row) (n : Nat)
    (batch : List DedupKey) (st : Storage)
    (h : ∀ r ∈ rows, rowValid r = true ∧ rowKey r ∈ K) :
    (importRows K rows n batch st).imported = 0 ∧
    (importRows K rows n batch st).skipped = rows.length ∧
    (∀ e ∈ (importRows K rows n batch st).errors, e.error = dupExistingMsg) ∧
    (importRows K rows n batch st).store = st := by
  induction rows generalizing n batch st with
  | nil => simp [importRows]
  | cons r rest ih =>
    obtain ⟨hv, hK⟩ := h r (List.mem_cons_self r rest)
    obtain ⟨d, hd⟩ := rowValid_dueDate hv
    have hc : classifyRow K batch n r =
        .dupExisting ⟨n, "duplicate", some (cleanStr r.description), dupExistingMsg⟩ := by
      simp [classifyRow, hv, hd, hK]
    have ihh := ih (n + 1) batch st (fun x hx => h x (List.mem_cons_of_mem r hx))
    simp only [importRows, hc, List.length_cons]
    refine ⟨ihh.1, by omega, ?_, ihh.2.2.2⟩
    intro e he
    rcases List.mem_cons.mp he with rfl | he
    · rfl
    · exact ihh.2.2.1 e he

/-- C4: when a first commit-mode import of a file imports all N rows, a
second commit-mode import of the same unchanged file imports nothing and
skips all N rows, every skip being a duplicate of an existing record. -/
theorem reimport_all_duplicates (st : Storage) (rows : List Row)
    (h : (importFile st rows true).1.importedRows = rows.length) :
    (importFile (importFile st rows true).2 rows true).1.importedRows = 0 ∧
    (importFile (importFile st rows true).2 rows true).1.skippedRows = rows.length ∧
    (∀ e ∈ (importFile (importFile st rows true).2 rows true).1.errors,
      e.error = dupExistingMsg) := by
  have hred : importFile st rows true =
      (⟨true, rows.length, (importRows (storeKeys st) rows 1 [] st).imported,
        (importRows (storeKeys st) rows 1 [] st).skipped,
        (importRows (storeKeys st) rows 1 [] st).errors,
        (importRows (storeKeys st) rows 1 [] st).managersCreated,
        (importRows (storeKeys st) rows 1 [] st).projectsCreated,
        (importRows (storeKeys st) rows 1 [] st).deliverablesCreated⟩,
       (importRows (storeKeys st) rows 1 [] st).store) := by
    simp [importFile]
  rw [hred] at h ⊢
  simp only at h
  have hall := importRows_full_success (storeKeys st) rows 1 [] st h
  set st2 := (importRows (storeKeys st) rows 1 [] st).store with hst2
  have hdup := importRows_all_dup (storeKeys st2) rows 1 [] st2
    (fun r hr => ⟨(hall r hr).1, (hall r hr).2⟩)
  have hred2 : importFile st2 rows true =
      (⟨true, rows.length, (importRows (storeKeys st2) rows 1 [] st2).imported,
        (importRows (storeKeys st2) rows 1 [] st2).skipped,
        (importRows (storeKeys st2) rows 1 [] st2).errors,
        (importRows (storeKeys st2) rows 1 [] st2).managersCreated,
        (importRows (storeKeys st2) rows 1 [] st2).projectsCreated,
        (importRows (storeKeys st2) rows 1 [] st2).deliverablesCreated⟩,
       (importRows (storeKeys st2) rows 1 [] st2).store) := by
    simp [importFile]
  simp only [hred2]
  exact ⟨hdup.1, hdup.2.1, hdup.2.2.1⟩

theorem reimport_all_duplicates_witness :
    (importFile (importFile emptyStorage [exRowValid] true).2 [exRowValid] true).1.importedRows = 0 ∧
    (importFile (importFile emptyStorage [exRowValid] true).2 [exRowValid] true).1.skippedRows = 1 ∧
    (∀ e ∈ (importFile (importFile emptyStorage [exRowValid] true).2 [exRowValid] true).1.errors,
      e.error = dupExistingMsg) :=
  reimport_all_duplicates emptyStorage [exRowValid] (by decide)

end Aiig
